import Mathlib

/-!
Shallow embedding of `qiime2/sdk/context.py` (the memoizing execution
context): the `Context` constructor, `get_action`'s deferred dispatcher,
`_load_cache`, `_validate_collection`, `_contains_proxies`,
`make_artifact` and `add_parent_reference`.

External collaborators (pools, signature coercion, plugin registry,
action execution) appear as explicit parameters or as small concrete
state structures; machinery internal to `context.py` is translated
line by line.
-/

namespace Qiime2

/-- Resources (artifacts) are identified abstractly by numbers. -/
abbrev Resource := Nat

/-- Handles referencing stored data in a pool. -/
abbrev Handle := Nat

/-- Metadata for one member of a cached collection output: item name,
position index (`.idx`) and declared total element count (`.total`). -/
structure ElemInfo where
  item_name : String
  idx : Nat
  total : Nat
deriving DecidableEq, Repr

/-- `HashableInvocation(plugin_action, arguments)`: the invocation key,
a qualified action name plus the list of single-key argument bindings. -/
structure HashableInvocation where
  plugin_action : String
  arguments : List (String × Nat)
deriving DecidableEq, Repr

/-- A per-output record held in the named pool's index: either a single
stored-value handle or a dict of element descriptors to handles. -/
inductive CachedRecord where
  | scalar (h : Handle)
  | collection (elems : List (ElemInfo × Handle))
deriving DecidableEq, Repr

/-- Python dict lookup on an association list (first binding wins). -/
def assoc {α β : Type} [DecidableEq α] : List (α × β) → α → Option β
  | [], _ => none
  | (k, v) :: rest, key => if k = key then some v else assoc rest key

/-- The named (durable) pool: an invocation index, backing storage for
`load`, and the list of resources saved into it by `save`. -/
structure NamedPool where
  index : List (HashableInvocation × List (String × CachedRecord))
  storage : List (Handle × Resource)
  saved : List Resource
deriving DecidableEq, Repr

/-- `self.cache`: the pool pair — the process pool (always present,
modelled as the ordered list of resources saved into it) and the
optional named pool. -/
structure CacheState where
  processPool : List Resource
  namedPool : Option NamedPool
deriving DecidableEq, Repr

/-- Python exceptions that can arise in `context.py` dispatch:
`KeyError` (missing dict key / destroyed pool storage), `AssertionError`
(from `_validate_collection`), `IndexError` (`collection_order[0]` on an
empty list), `AttributeError` (calling `.keys()` on a non-dict record). -/
inductive PyErr where
  | keyError
  | assertionError
  | indexError
  | attributeError
deriving DecidableEq, Repr

/-- A loaded output: a single loaded resource, or a `ResultCollection`
(insertion-ordered name-to-value mapping). -/
inductive OutputVal where
  | scalar (r : Resource)
  | coll (items : List (String × Resource))
deriving DecidableEq, Repr

/-- Ordered-dict assignment `d[k] = v`: overwrite in place if the key is
present, else append. -/
def odInsert (m : List (String × Resource)) (k : String) (v : Resource) :
    List (String × Resource) :=
  if m.any (fun p => p.1 = k) then
    m.map (fun p => if p.1 = k then (k, v) else p)
  else m ++ [(k, v)]

/-- `Context._validate_collection(collection_order)`: asserts all element
totals agree with the first element's total, and that the length equals
that total.  On an empty list the first `assert` passes vacuously and
`collection_order[0]` in the second raises `IndexError`. -/
def validate_collection (collection_order : List ElemInfo) : Except PyErr Unit :=
  match collection_order with
  | [] => Except.error PyErr.indexError
  | e0 :: _ =>
    if collection_order.all (fun elem => elem.total = e0.total) then
      if collection_order.length = e0.total then Except.ok ()
      else Except.error PyErr.assertionError
    else Except.error PyErr.assertionError

/-- The order `_load_cache` loads collection items in:
`collection_order = list(cached_collection.keys())` followed by
`collection_order.sort(key=lambda x: x.idx)`.  Python's `list.sort` is
the stable ascending sort by the key, which is exactly (stable) insertion
sort on `a.idx ≤ b.idx`. -/
def collection_load_order (cached_collection : List (ElemInfo × Handle)) :
    List ElemInfo :=
  List.insertionSort (fun a b => a.idx ≤ b.idx) (cached_collection.map Prod.fst)

/-- The body of `_load_cache`'s collection loop: look the descriptor up
in the record, load its element from the named pool (a missing storage
entry is a `KeyError`), and assign it into the `ResultCollection` under
the descriptor's item name. -/
def load_step (pool : NamedPool) (cached_collection : List (ElemInfo × Handle))
    (loaded_collection : List (String × Resource)) (elem_info : ElemInfo) :
    Except PyErr (List (String × Resource)) :=
  match assoc cached_collection elem_info with
  | none => Except.error PyErr.keyError
  | some elem =>
    match assoc pool.storage elem with
    | none => Except.error PyErr.keyError
    | some loaded_elem =>
      Except.ok (odInsert loaded_collection elem_info.item_name loaded_elem)

/-- The collection branch of `Context._load_cache`: validate the
descriptors, sort them by position index, then run the loading loop over
them in that order starting from a fresh `ResultCollection`. -/
def load_collection (pool : NamedPool) (cached_collection : List (ElemInfo × Handle)) :
    Except PyErr (List (String × Resource)) :=
  match validate_collection (cached_collection.map Prod.fst) with
  | Except.error e => Except.error e
  | Except.ok _ =>
    (collection_load_order cached_collection).foldlM
      (load_step pool cached_collection) []

/-- `Context._load_cache(action_obj, invocation)`: look the invocation up
in the named pool's index and load every declared output (`outputs` gives
each output name and whether its type is a collection type).  Loading a
record whose shape does not match the declared type fails with an
attribute error (external `load` applied to a dict, or `.keys()` on a
handle). -/
def load_cache (pool : NamedPool) (outputs : List (String × Bool))
    (invocation : HashableInvocation) : Except PyErr (List (String × OutputVal)) :=
  match assoc pool.index invocation with
  | none => Except.error PyErr.keyError
  | some cached_outputs =>
    outputs.foldlM
      (fun loaded_outputs nt =>
        match assoc cached_outputs nt.1 with
        | none => Except.error PyErr.keyError
        | some record =>
          if nt.2 then
            match record with
            | CachedRecord.collection elems =>
              (load_collection pool elems).map
                (fun c => loaded_outputs ++ [(nt.1, OutputVal.coll c)])
            | CachedRecord.scalar _ => Except.error PyErr.attributeError
          else
            match record with
            | CachedRecord.scalar h =>
              match assoc pool.storage h with
              | none => Except.error PyErr.keyError
              | some r => Except.ok (loaded_outputs ++ [(nt.1, OutputVal.scalar r)])
            | CachedRecord.collection _ => Except.error PyErr.attributeError)
      []

/-- An argument passed to the deferred action: either an unrealized
proxy (`qiime2.sdk.proxy.Proxy`) or a realized concrete value. -/
inductive Arg where
  | proxy (id : Nat)
  | value (v : Nat)
deriving DecidableEq, Repr

/-- `isinstance(arg, qiime2.sdk.proxy.Proxy)`. -/
def Arg.isProxy : Arg → Bool
  | Arg.proxy _ => true
  | Arg.value _ => false

/-- `Context._contains_proxies(*args, **kwargs)`. -/
def contains_proxies (args : List Arg) (kwargs : List (String × Arg)) : Bool :=
  args.any Arg.isProxy || kwargs.any (fun kv => kv.2.isProxy)

/-- The outcome of one dispatcher run that did not raise: cached results
were returned, or the action was executed (`parsl` records which
execution path was taken; `r` is the external execution's result). -/
inductive DispatchResult where
  | cacheHit (outs : List (String × OutputVal))
  | executed (parsl : Bool) (r : Nat)
deriving DecidableEq, Repr

/-- The execution tail of `deferred_action`: route through
`_bind_parsl(self, ...)` when `self.parallel`, else through
`_bind(lambda: Context(parent=self))`.  The external executions are the
parameters `runParsl` / `runLocal` (which may themselves raise). -/
def execute_branch (parallel : Bool) (runParsl runLocal : Except PyErr Nat) :
    Except PyErr DispatchResult :=
  if parallel then runParsl.map (DispatchResult.executed true)
  else runLocal.map (DispatchResult.executed false)

/-- The dispatcher `deferred_action(*args, **kwargs)` returned by
`Context.get_action`.  `normalize` is the external composition
`coerce_user_input(collate_inputs(...))` rendered as the list of
single-key bindings; `outputs` is the action signature's output list;
the first positional argument (the wrapped function) is dropped
(`args = args[1:]`). -/
def deferred_action
    (normalize : List Arg → List (String × Arg) → List (String × Nat))
    (outputs : List (String × Bool)) (plugin_action : String)
    (parallel : Bool) (runParsl runLocal : Except PyErr Nat)
    (cache : CacheState) (args0 : List Arg) (kwargs : List (String × Arg)) :
    Except PyErr DispatchResult :=
  let args := args0.drop 1
  match cache.namedPool with
  | some pool =>
    if contains_proxies args kwargs = false then
      let invocation : HashableInvocation :=
        ⟨plugin_action, normalize args kwargs⟩
      if (assoc pool.index invocation).isSome then
        match load_cache pool outputs invocation with
        | Except.ok res => Except.ok (DispatchResult.cacheHit res)
        | Except.error PyErr.keyError => execute_branch parallel runParsl runLocal
        | Except.error e => Except.error e
      else execute_branch parallel runParsl runLocal
    else execute_branch parallel runParsl runLocal
  | none => execute_branch parallel runParsl runLocal

/-- Observable events on the pool pair, used to state what runs under
the pool lock. -/
inductive Event where
  | lockAcquire
  | lockRelease
  | indexBuild
  | saveProcess (r : Resource)
  | saveNamed (r : Resource)
deriving DecidableEq, Repr

/-- One parallel executor from `PARALLEL_CONFIG.parallel_config.executors`,
carrying its label and its class name. -/
structure Executor where
  label : String
  className : String
deriving DecidableEq, Repr

/-- The process-wide `PARALLEL_CONFIG` singleton, read at root-context
construction. -/
structure ParallelConfigT where
  action_executor_mapping : List (String × String)
  parallel_config : Option (List Executor)
deriving DecidableEq, Repr

/-- The fields of a `Context` object set by `__init__` (the `_parent`
back-reference is kept out of the value; the tree structure is recovered
by the `InTreeOf` relation below). -/
structure Context where
  action_executor_mapping : List (String × String)
  executor_name_type_mapping : Option (List (String × String))
  parallel : Bool
  cache : CacheState
deriving DecidableEq, Repr

/-- `Context.__init__(parent, parallel)`.  `cfg` is `PARALLEL_CONFIG`,
`createIndex` the external `named_pool.create_index()`, `gcache` the
global cache returned by `get_cache()`.  Returns the constructed
context, the (possibly updated) global cache state, and the trace of
pool events. -/
def Context.init (cfg : ParallelConfigT) (createIndex : NamedPool → NamedPool)
    (gcache : CacheState) (parent : Option Context) (parallel : Bool) :
    Context × CacheState × List Event :=
  match parent with
  | some p =>
    (⟨p.action_executor_mapping, p.executor_name_type_mapping, p.parallel, p.cache⟩,
     gcache, [])
  | none =>
    let entm : Option (List (String × String)) :=
      match cfg.parallel_config with
      | none => none
      | some execs => some (execs.map (fun v => (v.label, v.className)))
    match gcache.namedPool with
    | some np =>
      let cache1 : CacheState := { gcache with namedPool := some (createIndex np) }
      (⟨cfg.action_executor_mapping, entm, parallel, cache1⟩, cache1,
       [Event.lockAcquire, Event.indexBuild, Event.lockRelease])
    | none =>
      (⟨cfg.action_executor_mapping, entm, parallel, gcache⟩, gcache,
       [Event.lockAcquire, Event.lockRelease])

/-- The contexts generated from `root` by repeated child construction
`Context(parent=...)`. -/
inductive InTreeOf (root : Context) : Context → Prop where
  | root : InTreeOf root root
  | child (cfg : ParallelConfigT) (ci : NamedPool → NamedPool) (g : CacheState)
      (b : Bool) (p : Context) :
      InTreeOf root p → InTreeOf root (Context.init cfg ci g (some p) b).1

/-- Python's `plugin.replace('_', '-')` (single-character pattern, so a
character-wise map). -/
def replaceUnderscores (s : String) : String :=
  String.mk (s.data.map (fun c => if c = '_' then '-' else c))

/-- The plugin registry visible through `qiime2.sdk.PluginManager()`:
plugin name to that plugin's action name to action object (abstract
identifier). -/
structure PluginManager where
  plugins : List (String × List (String × Nat))
deriving DecidableEq, Repr

/-- The resolution part of `Context.get_action(plugin, action)`:
normalize the plugin name, look it up, look up the action, and on
success return the qualified `plugin_action` name together with the
action object; otherwise the `ValueError` message raised. -/
def get_action_resolve (pm : PluginManager) (plugin action : String) :
    Except String (String × Nat) :=
  let plugin := replaceUnderscores plugin
  let plugin_action := plugin ++ ":" ++ action
  match assoc pm.plugins plugin with
  | none =>
    Except.error ("A plugin named '" ++ plugin ++ "' could not be found.")
  | some plugin_obj =>
    match assoc plugin_obj action with
    | none =>
      Except.error ("An action named '" ++ action ++ "' was not found for plugin '"
        ++ plugin ++ "'")
    | some action_obj => Except.ok (plugin_action, action_obj)

/-- External `named_pool.save(new_ref)`. -/
def NamedPool.saveRes (np : NamedPool) (r : Resource) : NamedPool :=
  { np with saved := np.saved ++ [r] }

/-- `Context.add_parent_reference(ref)`: under the pool lock, save `ref`
into the process pool obtaining `new_ref` (the cache-backed alias,
modelled by the external `handleOf`), save `new_ref` into the named pool
when one is active, and return `new_ref`.  The event trace records what
ran inside the lock. -/
def add_parent_reference (handleOf : Resource → Resource) (c : CacheState)
    (ref : Resource) : CacheState × Resource × List Event :=
  let new_ref := handleOf ref
  let c1 : CacheState := { c with processPool := c.processPool ++ [ref] }
  match c1.namedPool with
  | some np =>
    ({ c1 with namedPool := some (np.saveRes new_ref) }, new_ref,
     [Event.lockAcquire, Event.saveProcess ref, Event.saveNamed new_ref,
      Event.lockRelease])
  | none =>
    (c1, new_ref,
     [Event.lockAcquire, Event.saveProcess ref, Event.lockRelease])

/-- `Context.make_artifact(type, view, view_type)`: build the artifact
through the external `Artifact.import_data`, register it via
`add_parent_reference`, and return the artifact itself (the tracked
`new_ref` returned by registration is discarded). -/
def make_artifact (import_data : String → Nat → Option String → Resource)
    (handleOf : Resource → Resource) (c : CacheState)
    (type : String) (view : Nat) (view_type : Option String) :
    Resource × CacheState :=
  let artifact := import_data type view view_type
  let st := add_parent_reference handleOf c artifact
  (artifact, st.1)

/-- A named pool holding one corrupt collection record: a single element
descriptor declaring `total = 5`. -/
def corruptPool : NamedPool :=
  ⟨[(⟨"p:a", []⟩, [("o", CachedRecord.collection [(⟨"a", 0, 5⟩, 0)])])], [], []⟩

/-- A named pool indexing a scalar record whose backing storage is gone. -/
def stalePool : NamedPool :=
  ⟨[(⟨"p:a", []⟩, [("o", CachedRecord.scalar 3)])], [], []⟩

/-- A well-formed five-element collection record with positions 0..4,
all declaring `total = 5`, listed out of position order. -/
def fiveElems : List (ElemInfo × Handle) :=
  [(⟨"c", 2, 5⟩, 12), (⟨"a", 0, 5⟩, 10), (⟨"e", 4, 5⟩, 14),
   (⟨"b", 1, 5⟩, 11), (⟨"d", 3, 5⟩, 13)]

/-- Backing storage for `fiveElems`. -/
def fiveStorage : NamedPool :=
  ⟨[], [(10, 100), (11, 101), (12, 102), (13, 103), (14, 104)], []⟩

/-- Replacing underscores twice is the same as doing it once (the output
contains no underscore). -/
theorem replaceUnderscores_idem (s : String) :
    replaceUnderscores (replaceUnderscores s) = replaceUnderscores s := by
  unfold replaceUnderscores
  simp only [List.map_map]
  congr 1
  apply List.map_congr_left
  intro c _
  by_cases h : c = '_' <;> simp [h, Function.comp]

/-- Claim C9: `get_action(p, a)` behaves exactly like `get_action(p', a)`
where `p'` is `p` with every underscore replaced by a hyphen: the registry
lookup, the error raised on failure, and the qualified `plugin:action`
name (always hyphenated) are identical. -/
theorem get_action_underscore_hyphen_equiv (pm : PluginManager)
    (plugin action : String) :
    get_action_resolve pm plugin action
      = get_action_resolve pm (replaceUnderscores plugin) action := by
  unfold get_action_resolve
  rw [replaceUnderscores_idem]

/-- Claim C2: if any (post-function) positional or keyword argument is a
proxy, the dispatcher proceeds directly to execution: the result is
`execute_branch`, which does not depend on the cache at all — no
invocation key is built and no index (even one containing a matching
entry) is probed. -/
theorem dispatcher_proxy_short_circuit
    (normalize : List Arg → List (String × Arg) → List (String × Nat))
    (outputs : List (String × Bool)) (plugin_action : String)
    (parallel : Bool) (runParsl runLocal : Except PyErr Nat)
    (cache : CacheState) (args0 : List Arg) (kwargs : List (String × Arg))
    (h : contains_proxies (args0.drop 1) kwargs = true) :
    deferred_action normalize outputs plugin_action parallel runParsl runLocal
        cache args0 kwargs
      = execute_branch parallel runParsl runLocal := by
  unfold deferred_action
  rw [List.drop_one] at h
  cases cache.namedPool <;> simp [h]

/-- Witness for C2: a call whose second argument is a proxy short-circuits
to execution even though the index of the active named pool contains an
entry matching the call by value. -/
theorem dispatcher_proxy_short_circuit_witness :
    contains_proxies ([Arg.value 0, Arg.proxy 1].drop 1) [] = true
    ∧ deferred_action (fun _ _ => []) [("o", false)] "p:a" false
        (Except.ok 9) (Except.ok 7) ⟨[], some stalePool⟩
        [Arg.value 0, Arg.proxy 1] []
      = execute_branch false (Except.ok 9) (Except.ok 7) :=
  ⟨by decide,
   dispatcher_proxy_short_circuit (fun _ _ => []) [("o", false)] "p:a" false
     (Except.ok 9) (Except.ok 7) ⟨[], some stalePool⟩
     [Arg.value 0, Arg.proxy 1] [] (by decide)⟩

/-- Claim C8: `add_parent_reference` saves the resource into the process
pool, obtains the new cache-backed handle, saves that handle into the
named pool exactly when one is active, and returns the process-pool
handle; the saves run inside the pool lock and registration is eager, so
earlier pool contents remain discoverable. -/
theorem add_parent_reference_spec (handleOf : Resource → Resource)
    (c : CacheState) (ref : Resource) :
    (add_parent_reference handleOf c ref).2.1 = handleOf ref
    ∧ (add_parent_reference handleOf c ref).1.processPool = c.processPool ++ [ref]
    ∧ ref ∈ (add_parent_reference handleOf c ref).1.processPool
    ∧ (∀ r ∈ c.processPool, r ∈ (add_parent_reference handleOf c ref).1.processPool)
    ∧ (∀ np, c.namedPool = some np →
        (add_parent_reference handleOf c ref).1.namedPool
            = some (np.saveRes (handleOf ref))
        ∧ (add_parent_reference handleOf c ref).2.2
            = [Event.lockAcquire, Event.saveProcess ref,
               Event.saveNamed (handleOf ref), Event.lockRelease])
    ∧ (c.namedPool = none →
        (add_parent_reference handleOf c ref).1.namedPool = none
        ∧ (add_parent_reference handleOf c ref).2.2
            = [Event.lockAcquire, Event.saveProcess ref, Event.lockRelease]) := by
  obtain ⟨pp, np⟩ := c
  cases np <;> simp [add_parent_reference, List.mem_append] <;>
    exact fun r hr => Or.inl hr

/-- Witness for C8: registering resource 7 with an active named pool
yields the cache-backed handle 1007, appends 7 to the process pool, and
saves 1007 into the named pool inside the lock. -/
theorem add_parent_reference_spec_witness :
    (⟨[5], some stalePool⟩ : CacheState).namedPool = some stalePool
    ∧ (add_parent_reference (fun r => r + 1000) ⟨[5], some stalePool⟩ 7).1.namedPool
        = some (stalePool.saveRes 1007)
    ∧ (add_parent_reference (fun r => r + 1000) ⟨[5], some stalePool⟩ 7).2.2
        = [Event.lockAcquire, Event.saveProcess 7, Event.saveNamed 1007,
           Event.lockRelease] :=
  ⟨rfl,
   ((add_parent_reference_spec (fun r => r + 1000) ⟨[5], some stalePool⟩
       7).2.2.2.2.1 stalePool rfl).1,
   ((add_parent_reference_spec (fun r => r + 1000) ⟨[5], some stalePool⟩
       7).2.2.2.2.1 stalePool rfl).2⟩

/-- Claim C10: `make_artifact` returns the artifact produced by the
external import facility itself — independently of whatever handle the
registration produces — while registration into the process pool (and
named pool, when active) still takes place before it returns. -/
theorem make_artifact_returns_artifact
    (import_data : String → Nat → Option String → Resource)
    (h1 h2 : Resource → Resource) (c : CacheState)
    (type : String) (view : Nat) (view_type : Option String) :
    (make_artifact import_data h1 c type view view_type).1
        = import_data type view view_type
    ∧ (make_artifact import_data h1 c type view view_type).1
        = (make_artifact import_data h2 c type view view_type).1
    ∧ (make_artifact import_data h1 c type view view_type).2.processPool
        = c.processPool ++ [import_data type view view_type]
    ∧ (∀ np, c.namedPool = some np →
        (make_artifact import_data h1 c type view view_type).2.namedPool
          = some (np.saveRes (h1 (import_data type view view_type))))
    ∧ (c.namedPool = none →
        (make_artifact import_data h1 c type view view_type).2.namedPool = none) := by
  obtain ⟨pp, np⟩ := c
  cases np <;>
    simp [make_artifact, add_parent_reference]

/-- Witness for C10: with an active named pool, `make_artifact` returns
the imported artifact 42 (for two different handle functions alike) and
the named pool receives the tracked alias. -/
theorem make_artifact_returns_artifact_witness :
    (⟨[], some stalePool⟩ : CacheState).namedPool = some stalePool
    ∧ (make_artifact (fun _ v _ => v * 2) (fun r => r + 1000)
        ⟨[], some stalePool⟩ "T" 21 none).1 = 42
    ∧ (make_artifact (fun _ v _ => v * 2) (fun r => r + 1000)
          ⟨[], some stalePool⟩ "T" 21 none).2.namedPool
        = some (stalePool.saveRes 1042) :=
  ⟨rfl,
   (make_artifact_returns_artifact (fun _ v _ => v * 2) (fun r => r + 1000)
      (fun r => r + 2000) ⟨[], some stalePool⟩ "T" 21 none).1,
   (make_artifact_returns_artifact (fun _ v _ => v * 2) (fun r => r + 1000)
      (fun r => r + 2000) ⟨[], some stalePool⟩ "T" 21 none).2.2.2.1
     stalePool rfl⟩

/-- Claim C6: a child context copies its parent's pool-pair handle,
parallel flag and both executor mappings verbatim, and the `parallel`
argument is ignored; consequently every context in a tree rooted at the
same root shares that root's pool pair and parallel flag. -/
theorem child_context_inherits (cfg : ParallelConfigT)
    (ci : NamedPool → NamedPool) (g : CacheState) (b : Bool) (p : Context)
    (root c : Context) (h : InTreeOf root c) :
    ((Context.init cfg ci g (some p) b).1.action_executor_mapping
        = p.action_executor_mapping
     ∧ (Context.init cfg ci g (some p) b).1.executor_name_type_mapping
        = p.executor_name_type_mapping
     ∧ (Context.init cfg ci g (some p) b).1.parallel = p.parallel
     ∧ (Context.init cfg ci g (some p) b).1.cache = p.cache
     ∧ (Context.init cfg ci g (some p) b).1 = (Context.init cfg ci g (some p) (!b)).1)
    ∧ c.cache = root.cache ∧ c.parallel = root.parallel := by
  refine ⟨⟨rfl, rfl, rfl, rfl, rfl⟩, ?_⟩
  induction h with
  | root => exact ⟨rfl, rfl⟩
  | child cfg' ci' g' b' p' _ ih => exact ih

/-- Witness for C6: the grandchild of a concrete root built through two
child constructions (with differing `parallel` arguments) shares the
root's cache and parallel flag. -/
theorem child_context_inherits_witness :
    InTreeOf ⟨[("x", "l")], none, true, ⟨[3], none⟩⟩
      (Context.init ⟨[], none⟩ id ⟨[], none⟩
        (some (Context.init ⟨[], none⟩ id ⟨[], none⟩
          (some ⟨[("x", "l")], none, true, ⟨[3], none⟩⟩) false).1) false).1
    ∧ (Context.init ⟨[], none⟩ id ⟨[], none⟩
        (some (Context.init ⟨[], none⟩ id ⟨[], none⟩
          (some ⟨[("x", "l")], none, true, ⟨[3], none⟩⟩) false).1) false).1.cache
        = (⟨[3], none⟩ : CacheState)
    ∧ (Context.init ⟨[], none⟩ id ⟨[], none⟩
        (some (Context.init ⟨[], none⟩ id ⟨[], none⟩
          (some ⟨[("x", "l")], none, true, ⟨[3], none⟩⟩) false).1) false).1.parallel
        = true :=
  ⟨InTreeOf.child _ _ _ _ _ (InTreeOf.child _ _ _ _ _ InTreeOf.root),
   (child_context_inherits ⟨[], none⟩ id ⟨[], none⟩ false
      ⟨[("x", "l")], none, true, ⟨[3], none⟩⟩
      ⟨[("x", "l")], none, true, ⟨[3], none⟩⟩ _
      (InTreeOf.child _ _ _ _ _ (InTreeOf.child _ _ _ _ _ InTreeOf.root))).2.1,
   (child_context_inherits ⟨[], none⟩ id ⟨[], none⟩ false
      ⟨[("x", "l")], none, true, ⟨[3], none⟩⟩
      ⟨[("x", "l")], none, true, ⟨[3], none⟩⟩ _
      (InTreeOf.child _ _ _ _ _ (InTreeOf.child _ _ _ _ _ InTreeOf.root))).2.2⟩

/-- Claim C7: the durable pool's index is built only during root-context
construction and only when a named pool is configured, inside the pool
lock; child construction touches neither lock nor index; and when the
external `create_index` is idempotent, a second root construction
against the same pool leaves the cache state unchanged. -/
theorem root_index_once (cfg : ParallelConfigT) (ci : NamedPool → NamedPool) :
    (∀ g np b, g.namedPool = some np →
        (Context.init cfg ci g none b).2.2
            = [Event.lockAcquire, Event.indexBuild, Event.lockRelease]
        ∧ (Context.init cfg ci g none b).2.1
            = { g with namedPool := some (ci np) })
    ∧ (∀ g b, g.namedPool = none →
        (Context.init cfg ci g none b).2.2 = [Event.lockAcquire, Event.lockRelease]
        ∧ (Context.init cfg ci g none b).2.1 = g)
    ∧ (∀ g b p, (Context.init cfg ci g (some p) b).2.2 = []
        ∧ (Context.init cfg ci g (some p) b).2.1 = g)
    ∧ ((∀ np, ci (ci np) = ci np) → ∀ g b b',
        (Context.init cfg ci (Context.init cfg ci g none b).2.1 none b').2.1
          = (Context.init cfg ci g none b).2.1) := by
  refine ⟨?_, ?_, fun g b p => ⟨rfl, rfl⟩, ?_⟩
  · intro g np b hg
    obtain ⟨pp, gnp⟩ := g
    cases gnp with
    | none => exact absurd hg (by simp)
    | some np' =>
      obtain rfl : np' = np := by simpa using hg
      exact ⟨rfl, rfl⟩
  · intro g b hg
    obtain ⟨pp, gnp⟩ := g
    cases gnp with
    | none => exact ⟨rfl, rfl⟩
    | some np' => exact absurd hg (by simp)
  · intro hidem g b b'
    obtain ⟨pp, gnp⟩ := g
    cases gnp with
    | none => rfl
    | some np => simp [Context.init, hidem np]

/-- Witness for C7: with the idempotent identity as `create_index` and a
configured named pool, root construction emits the lock-bracketed index
event, a child emits no events, and a second root construction is a
no-op on the cache state. -/
theorem root_index_once_witness :
    (⟨[], some stalePool⟩ : CacheState).namedPool = some stalePool
    ∧ (Context.init ⟨[], none⟩ id ⟨[], some stalePool⟩ none false).2.2
        = [Event.lockAcquire, Event.indexBuild, Event.lockRelease]
    ∧ (Context.init ⟨[], none⟩ id ⟨[], some stalePool⟩
        (some ⟨[], none, false, ⟨[], none⟩⟩) true).2.2 = []
    ∧ (Context.init ⟨[], none⟩ id
        (Context.init ⟨[], none⟩ id ⟨[], some stalePool⟩ none false).2.1 none true).2.1
        = (Context.init ⟨[], none⟩ id ⟨[], some stalePool⟩ none false).2.1 :=
  ⟨rfl,
   ((root_index_once ⟨[], none⟩ id).1 ⟨[], some stalePool⟩ stalePool false rfl).1,
   ((root_index_once ⟨[], none⟩ id).2.2.1 ⟨[], some stalePool⟩ true
      ⟨[], none, false, ⟨[], none⟩⟩).1,
   (root_index_once ⟨[], none⟩ id).2.2.2 (fun _ => rfl)
     ⟨[], some stalePool⟩ false true⟩

/-- Unfolding of the dispatcher in the active-pool, no-proxy case: probe
the index, and on membership dispatch on the result of `_load_cache`. -/
theorem deferred_action_probe
    (normalize : List Arg → List (String × Arg) → List (String × Nat))
    (outputs : List (String × Bool)) (pa : String) (par : Bool)
    (rp rl : Except PyErr Nat) (pp : List Resource) (pool : NamedPool)
    (args0 : List Arg) (kwargs : List (String × Arg))
    (h : contains_proxies (args0.drop 1) kwargs = false) :
    deferred_action normalize outputs pa par rp rl ⟨pp, some pool⟩ args0 kwargs
      = (if (assoc pool.index ⟨pa, normalize (args0.drop 1) kwargs⟩).isSome then
          match load_cache pool outputs ⟨pa, normalize (args0.drop 1) kwargs⟩ with
          | Except.ok res => Except.ok (DispatchResult.cacheHit res)
          | Except.error PyErr.keyError => execute_branch par rp rl
          | Except.error e => Except.error e
        else execute_branch par rp rl) := by
  unfold deferred_action
  rw [List.drop_one] at h
  simp [h]

/-- `_load_cache` on an invocation absent from the index raises
`KeyError`. -/
theorem load_cache_not_mem (pool : NamedPool) (outputs : List (String × Bool))
    (invocation : HashableInvocation)
    (h : assoc pool.index invocation = none) :
    load_cache pool outputs invocation = Except.error PyErr.keyError := by
  unfold load_cache
  rw [h]

/-- Claim C3: a `KeyError` raised while loading an indexed entry
(destroyed backing storage, or a missing record key) is treated as a
cache miss — the dispatcher falls through to execution and the error is
never propagated; every other dispatch error (e.g. the corrupt-cache
assertion) and every execution error propagates to the caller
unmodified. -/
theorem stale_miss_swallowed_others_propagate
    (normalize : List Arg → List (String × Arg) → List (String × Nat))
    (outputs : List (String × Bool)) (pa : String) (par : Bool)
    (rp rl : Except PyErr Nat) (pp : List Resource) (pool : NamedPool)
    (args0 : List Arg) (kwargs : List (String × Arg)) (e er : PyErr) :
    (contains_proxies (args0.drop 1) kwargs = false →
      load_cache pool outputs ⟨pa, normalize (args0.drop 1) kwargs⟩
          = Except.error PyErr.keyError →
      deferred_action normalize outputs pa par rp rl ⟨pp, some pool⟩ args0 kwargs
        = execute_branch par rp rl)
    ∧ (contains_proxies (args0.drop 1) kwargs = false →
        load_cache pool outputs ⟨pa, normalize (args0.drop 1) kwargs⟩
            = Except.error e →
        e ≠ PyErr.keyError →
        deferred_action normalize outputs pa par rp rl ⟨pp, some pool⟩ args0 kwargs
          = Except.error e)
    ∧ (par = false → rl = Except.error er →
        execute_branch par rp rl = Except.error er)
    ∧ (par = true → rp = Except.error er →
        execute_branch par rp rl = Except.error er) := by
  refine ⟨?_, ?_, ?_, ?_⟩
  · intro hnp hl
    rw [deferred_action_probe normalize outputs pa par rp rl pp pool args0 kwargs hnp]
    by_cases hm : (assoc pool.index ⟨pa, normalize (args0.drop 1) kwargs⟩).isSome
    · rw [if_pos hm, hl]
    · rw [if_neg hm]
  · intro hnp hl hne
    rw [deferred_action_probe normalize outputs pa par rp rl pp pool args0 kwargs hnp]
    have hm : (assoc pool.index ⟨pa, normalize (args0.drop 1) kwargs⟩).isSome := by
      cases hmm : assoc pool.index ⟨pa, normalize (args0.drop 1) kwargs⟩ with
      | none =>
        rw [load_cache_not_mem pool outputs _ hmm] at hl
        exact absurd (Except.error.inj hl).symm hne
      | some v => simp
    rw [if_pos hm, hl]
    cases e with
    | keyError => exact absurd rfl hne
    | assertionError => rfl
    | indexError => rfl
    | attributeError => rfl
  · intro hpar hrl
    rw [execute_branch, if_neg (by simp [hpar]), hrl]
    rfl
  · intro hpar hrp
    rw [execute_branch, if_pos hpar, hrp]
    rfl

/-- Witness for C3: a stale indexed scalar entry (empty storage) makes
the dispatcher execute; a corrupt collection entry makes it propagate
the assertion error; a failing local execution propagates its error. -/
theorem stale_miss_swallowed_others_propagate_witness :
    contains_proxies ([Arg.value 0].drop 1) [] = false
    ∧ load_cache stalePool [("o", false)] ⟨"p:a", []⟩ = Except.error PyErr.keyError
    ∧ deferred_action (fun _ _ => []) [("o", false)] "p:a" false
        (Except.ok 9) (Except.ok 7) ⟨[], some stalePool⟩ [Arg.value 0] []
      = execute_branch false (Except.ok 9) (Except.ok 7)
    ∧ execute_branch false (Except.ok 9) (Except.error PyErr.keyError)
      = Except.error PyErr.keyError :=
  ⟨by decide, rfl,
   (stale_miss_swallowed_others_propagate (fun _ _ => []) [("o", false)] "p:a"
      false (Except.ok 9) (Except.ok 7) [] stalePool [Arg.value 0] []
      PyErr.keyError PyErr.keyError).1 (by decide) rfl,
   (stale_miss_swallowed_others_propagate (fun _ _ => []) [("o", false)] "p:a"
      false (Except.ok 9) (Except.error PyErr.keyError) [] stalePool
      [Arg.value 0] [] PyErr.keyError PyErr.keyError).2.2.1 rfl rfl⟩

/-- Claim C1 (amended): per dispatcher call, if a durable pool is active,
no argument is a proxy, and reconstruction of the invocation succeeds,
the reconstructed outputs are returned and the action is not executed;
if no durable pool is active, an argument is a proxy, or reconstruction
fails with a missing-key error, the call proceeds to execution (so a
second identical call against a pool in which execution registered the
invocation with loadable storage is a cache hit, executing the action at
most once); if reconstruction fails with any other error, that error
propagates and neither outcome occurs.  Cache hit and execution are
mutually exclusive. -/
theorem dispatcher_hit_xor_execute
    (normalize : List Arg → List (String × Arg) → List (String × Nat))
    (outputs : List (String × Bool)) (pa : String) (par : Bool)
    (rp rl : Except PyErr Nat) (pp : List Resource) (pool : NamedPool)
    (cache : CacheState) (args0 : List Arg) (kwargs : List (String × Arg))
    (res : List (String × OutputVal)) (e : PyErr) :
    (cache.namedPool = none →
      deferred_action normalize outputs pa par rp rl cache args0 kwargs
        = execute_branch par rp rl)
    ∧ (contains_proxies (args0.drop 1) kwargs = true →
        deferred_action normalize outputs pa par rp rl cache args0 kwargs
          = execute_branch par rp rl)
    ∧ (contains_proxies (args0.drop 1) kwargs = false →
        load_cache pool outputs ⟨pa, normalize (args0.drop 1) kwargs⟩
            = Except.ok res →
        deferred_action normalize outputs pa par rp rl ⟨pp, some pool⟩ args0 kwargs
          = Except.ok (DispatchResult.cacheHit res))
    ∧ (contains_proxies (args0.drop 1) kwargs = false →
        load_cache pool outputs ⟨pa, normalize (args0.drop 1) kwargs⟩
            = Except.error PyErr.keyError →
        deferred_action normalize outputs pa par rp rl ⟨pp, some pool⟩ args0 kwargs
          = execute_branch par rp rl)
    ∧ (contains_proxies (args0.drop 1) kwargs = false →
        load_cache pool outputs ⟨pa, normalize (args0.drop 1) kwargs⟩
            = Except.error e →
        e ≠ PyErr.keyError →
        deferred_action normalize outputs pa par rp rl ⟨pp, some pool⟩ args0 kwargs
          = Except.error e)
    ∧ (∀ outs, execute_branch par rp rl ≠ Except.ok (DispatchResult.cacheHit outs)) := by
  refine ⟨?_, ?_, ?_, ?_, ?_, ?_⟩
  · intro hnone
    obtain ⟨cp, cnp⟩ := cache
    obtain rfl : cnp = none := hnone
    rfl
  · intro hpx
    exact dispatcher_proxy_short_circuit normalize outputs pa par rp rl cache
      args0 kwargs hpx
  · intro hnp hl
    rw [deferred_action_probe normalize outputs pa par rp rl pp pool args0 kwargs hnp]
    have hm : (assoc pool.index ⟨pa, normalize (args0.drop 1) kwargs⟩).isSome := by
      cases hmm : assoc pool.index ⟨pa, normalize (args0.drop 1) kwargs⟩ with
      | none => rw [load_cache_not_mem pool outputs _ hmm] at hl; cases hl
      | some v => simp
    rw [if_pos hm, hl]
  · intro hnp hl
    exact (stale_miss_swallowed_others_propagate normalize outputs pa par rp rl
      pp pool args0 kwargs PyErr.keyError PyErr.keyError).1 hnp hl
  · intro hnp hl hne
    exact (stale_miss_swallowed_others_propagate normalize outputs pa par rp rl
      pp pool args0 kwargs e PyErr.keyError).2.1 hnp hl hne
  · intro outs
    unfold execute_branch
    cases par <;> [cases rl; cases rp] <;> simp [Except.map]

/-- Witness for C1: with the five-element collection record and intact
storage, the cache hit returns the reconstructed ordered collection and
does not execute; with a stale scalar entry, the same dispatcher
executes. -/
theorem dispatcher_hit_xor_execute_witness :
    contains_proxies ([Arg.value 0].drop 1) [] = false
    ∧ load_cache ⟨[(⟨"p:a", []⟩, [("o", CachedRecord.collection fiveElems)])],
          fiveStorage.storage, []⟩ [("o", true)] ⟨"p:a", []⟩
        = Except.ok [("o", OutputVal.coll
            [("a", 100), ("b", 101), ("c", 102), ("d", 103), ("e", 104)])]
    ∧ deferred_action (fun _ _ => []) [("o", true)] "p:a" false
        (Except.ok 9) (Except.ok 7)
        ⟨[], some ⟨[(⟨"p:a", []⟩, [("o", CachedRecord.collection fiveElems)])],
          fiveStorage.storage, []⟩⟩ [Arg.value 0] []
      = Except.ok (DispatchResult.cacheHit
          [("o", OutputVal.coll
            [("a", 100), ("b", 101), ("c", 102), ("d", 103), ("e", 104)])]) :=
  ⟨by decide, rfl,
   (dispatcher_hit_xor_execute (fun _ _ => []) [("o", true)] "p:a" false
      (Except.ok 9) (Except.ok 7) []
      ⟨[(⟨"p:a", []⟩, [("o", CachedRecord.collection fiveElems)])],
        fiveStorage.storage, []⟩
      ⟨[], some ⟨[(⟨"p:a", []⟩, [("o", CachedRecord.collection fiveElems)])],
        fiveStorage.storage, []⟩⟩ [Arg.value 0] []
      [("o", OutputVal.coll
        [("a", 100), ("b", 101), ("c", 102), ("d", 103), ("e", 104)])]
      PyErr.keyError).2.2.1 (by decide) rfl⟩

/-- Counterexample to C1 as literally stated: with an active durable
pool, no proxy arguments, and the invocation present in the index but
backed by a corrupt collection record, the dispatcher neither returns a
cache hit nor executes the action — it raises the assertion error,
although execution would have produced a result. -/
theorem dispatcher_corrupt_counterexample :
    deferred_action (fun _ _ => []) [("o", true)] "p:a" false
        (Except.ok 9) (Except.ok 7) ⟨[], some corruptPool⟩ [Arg.value 0] []
      = Except.error PyErr.assertionError
    ∧ (assoc corruptPool.index ⟨"p:a", []⟩).isSome = true
    ∧ contains_proxies ([Arg.value 0].drop 1) [] = false
    ∧ execute_branch false (Except.ok 9) (Except.ok 7)
      = Except.ok (DispatchResult.executed false 7) :=
  ⟨rfl, by decide, by decide, rfl⟩

/-- Claim C4: a cached collection record with at least one descriptor in
which two descriptors disagree on the declared total, or whose number of
descriptors differs from the first descriptor's declared total, makes
reconstruction fail with the corrupt-cache assertion error for every
possible pool — no element is loaded and no partial collection is
returned. -/
theorem collection_completeness_violation
    (cached : List (ElemInfo × Handle)) (e0 : ElemInfo) (rest : List ElemInfo)
    (h0 : cached.map Prod.fst = e0 :: rest)
    (hviol : (∃ a ∈ cached.map Prod.fst, ∃ b ∈ cached.map Prod.fst,
                a.total ≠ b.total)
      ∨ (cached.map Prod.fst).length ≠ e0.total) :
    ∀ pool : NamedPool,
      load_collection pool cached = Except.error PyErr.assertionError := by
  intro pool
  have hcons : validate_collection (e0 :: rest)
      = if (e0 :: rest).all (fun elem => elem.total = e0.total) then
          (if (e0 :: rest).length = e0.total then Except.ok ()
           else Except.error PyErr.assertionError)
        else Except.error PyErr.assertionError := rfl
  have hval : validate_collection (cached.map Prod.fst)
      = Except.error PyErr.assertionError := by
    rw [h0, hcons]
    by_cases hall : (e0 :: rest).all (fun elem => elem.total = e0.total)
    · rw [if_pos hall]
      cases hviol with
      | inl hab =>
        obtain ⟨a, ha, b, hb, hne⟩ := hab
        rw [h0] at ha hb
        rw [List.all_eq_true] at hall
        have hha := hall a ha
        have hhb := hall b hb
        simp only [decide_eq_true_eq] at hha hhb
        exact absurd (hha.trans hhb.symm) hne
      | inr hlen =>
        rw [h0] at hlen
        rw [if_neg (by exact_mod_cast hlen)]
    · rw [if_neg hall]
  unfold load_collection
  rw [hval]

/-- Witness for C4: four saved elements all declaring `total = 5` make
reconstruction fail with the assertion error on a concrete (empty)
pool. -/
theorem collection_completeness_violation_witness :
    (([(⟨"a", 0, 5⟩, 0), (⟨"b", 1, 5⟩, 1), (⟨"c", 2, 5⟩, 2), (⟨"d", 3, 5⟩, 3)] :
        List (ElemInfo × Handle)).map Prod.fst).length
      ≠ (ElemInfo.mk "a" 0 5).total
    ∧ load_collection ⟨[], [], []⟩
        [(⟨"a", 0, 5⟩, 0), (⟨"b", 1, 5⟩, 1), (⟨"c", 2, 5⟩, 2), (⟨"d", 3, 5⟩, 3)]
      = Except.error PyErr.assertionError :=
  ⟨by decide,
   collection_completeness_violation
     [(⟨"a", 0, 5⟩, 0), (⟨"b", 1, 5⟩, 1), (⟨"c", 2, 5⟩, 2), (⟨"d", 3, 5⟩, 3)]
     ⟨"a", 0, 5⟩ [⟨"b", 1, 5⟩, ⟨"c", 2, 5⟩, ⟨"d", 3, 5⟩] rfl
     (Or.inr (by decide)) ⟨[], [], []⟩⟩

/-- Dict lookup is invariant under permutation when keys are unique. -/
theorem assoc_perm {α β : Type} [DecidableEq α] {l l' : List (α × β)}
    (hp : l.Perm l') (hnd : (l.map Prod.fst).Nodup) (k : α) :
    assoc l k = assoc l' k := by
  induction hp with
  | nil => rfl
  | cons x h ih =>
    rw [List.map_cons, List.nodup_cons] at hnd
    simp only [assoc]
    split
    · rfl
    · exact ih hnd.2
  | swap x y t =>
    rw [List.map_cons, List.map_cons, List.nodup_cons] at hnd
    have hxy : y.1 ≠ x.1 := fun h => hnd.1 (by rw [h]; exact List.mem_cons_self _ _)
    by_cases hy : y.1 = k <;> by_cases hx : x.1 = k <;>
      simp [assoc, hy, hx]
    exact absurd (hy.trans hx.symm) hxy
  | trans h₁ h₂ ih₁ ih₂ =>
    exact (ih₁ hnd).trans (ih₂ ((h₁.map Prod.fst).nodup hnd))

/-- `_validate_collection` succeeds on a nonempty descriptor list exactly
when every total agrees with the first and the length equals it. -/
theorem validate_collection_ok_iff (e0 : ElemInfo) (rest : List ElemInfo) :
    validate_collection (e0 :: rest) = Except.ok () ↔
      ((e0 :: rest).all (fun elem => elem.total = e0.total) = true
       ∧ (e0 :: rest).length = e0.total) := by
  have hcons : validate_collection (e0 :: rest)
      = if (e0 :: rest).all (fun elem => elem.total = e0.total) then
          (if (e0 :: rest).length = e0.total then Except.ok ()
           else Except.error PyErr.assertionError)
        else Except.error PyErr.assertionError := rfl
  rw [hcons]
  by_cases h1 : (e0 :: rest).all (fun elem => elem.total = e0.total) <;>
    by_cases h2 : (e0 :: rest).length = e0.total <;>
      simp [h1, h2]

/-- Validation success is preserved by permuting the descriptors. -/
theorem validate_collection_perm_ok {order order' : List ElemInfo}
    (hp : order.Perm order')
    (hok : validate_collection order = Except.ok ()) :
    validate_collection order' = Except.ok () := by
  cases order with
  | nil => exact absurd hok (by simp [validate_collection])
  | cons e0 rest =>
    obtain ⟨hall, hlen⟩ := (validate_collection_ok_iff e0 rest).mp hok
    cases order' with
    | nil =>
      have := hp.length_eq
      simp at this
    | cons e0' rest' =>
      rw [List.all_eq_true] at hall
      have he0' : e0'.total = e0.total := by
        have : e0' ∈ e0 :: rest := hp.mem_iff.mpr (by simp)
        simpa using hall e0' this
      refine (validate_collection_ok_iff e0' rest').mpr ⟨?_, ?_⟩
      · rw [List.all_eq_true]
        intro x hx
        have : x ∈ e0 :: rest := hp.mem_iff.mpr hx
        have := hall x this
        simp only [decide_eq_true_eq] at this ⊢
        rw [this, he0']
      · rw [← hp.length_eq, hlen, he0']

/-- A list sorted by non-strict position order with pairwise-distinct
positions is sorted by strict position order. -/
theorem sorted_strict_of_nodup {l : List ElemInfo}
    (hs : l.Sorted (fun a b => a.idx ≤ b.idx))
    (hnd : (l.map ElemInfo.idx).Nodup) :
    l.Sorted (fun a b => a.idx < b.idx) := by
  have hpw : l.Pairwise (fun a b => a.idx ≠ b.idx) :=
    (List.pairwise_map).mp hnd
  exact (hs.and hpw).imp (fun h => Nat.lt_of_le_of_ne h.1 h.2)

/-- Two sorted lists with the same elements and pairwise-distinct
positions are equal. -/
theorem sorted_lists_unique {s s' : List ElemInfo}
    (hperm : s.Perm s')
    (hs : s.Sorted (fun a b => a.idx ≤ b.idx))
    (hs' : s'.Sorted (fun a b => a.idx ≤ b.idx))
    (hnd : (s.map ElemInfo.idx).Nodup) :
    s = s' := by
  haveI : IsAntisymm ElemInfo (fun a b => a.idx < b.idx) :=
    ⟨fun a b h1 h2 => absurd h2 (Nat.lt_asymm h1)⟩
  have hnd' : (s'.map ElemInfo.idx).Nodup := (hperm.map ElemInfo.idx).nodup hnd
  exact List.eq_of_perm_of_sorted hperm
    (sorted_strict_of_nodup hs hnd) (sorted_strict_of_nodup hs' hnd')

/-- The loading loop only observes the record through lookups, so two
records with identical lookups drive it identically. -/
theorem load_fold_congr (pool : NamedPool)
    {cached cached' : List (ElemInfo × Handle)}
    (hlook : ∀ e, assoc cached e = assoc cached' e) :
    ∀ (l : List ElemInfo) (acc : List (String × Resource)),
      l.foldlM (load_step pool cached) acc
        = l.foldlM (load_step pool cached') acc := by
  intro l
  induction l with
  | nil => intro acc; rfl
  | cons e t ih =>
    intro acc
    have hstep : load_step pool cached acc e = load_step pool cached' acc e := by
      unfold load_step
      rw [hlook e]
    rw [List.foldlM_cons, List.foldlM_cons, hstep]
    cases hres : load_step pool cached' acc e with
    | error err => rfl
    | ok acc' => exact ih acc'

/-- When every remaining descriptor resolves to loadable storage and the
item names (accumulated and remaining) are pairwise distinct, the loop
succeeds and appends one entry per descriptor, in loop order. -/
theorem load_fold_names (pool : NamedPool) (cached : List (ElemInfo × Handle)) :
    ∀ (l : List ElemInfo) (acc : List (String × Resource)),
      (∀ e ∈ l, ∃ h r, assoc cached e = some h ∧ assoc pool.storage h = some r) →
      (acc.map Prod.fst ++ l.map ElemInfo.item_name).Nodup →
      ∃ items, l.foldlM (load_step pool cached) acc = Except.ok items
        ∧ items.map Prod.fst = acc.map Prod.fst ++ l.map ElemInfo.item_name := by
  intro l
  induction l with
  | nil =>
    intro acc _ _
    exact ⟨acc, rfl, by simp⟩
  | cons e t ih =>
    intro acc hload hnd
    obtain ⟨h, r, he, hr⟩ := hload e (by simp)
    have hstep : load_step pool cached acc e
        = Except.ok (odInsert acc e.item_name r) := by
      simp [load_step, he, hr]
    have hfresh : ¬ acc.any (fun p => p.1 = e.item_name) = true := by
      intro hmem
      rw [List.any_eq_true] at hmem
      obtain ⟨p, hp, hpe⟩ := hmem
      simp only [decide_eq_true_eq] at hpe
      have hdisj := List.disjoint_of_nodup_append hnd
      exact hdisj (List.mem_map.mpr ⟨p, hp, hpe⟩) (by simp)
    have hins : odInsert acc e.item_name r = acc ++ [(e.item_name, r)] := by
      unfold odInsert
      rw [if_neg hfresh]
    have hnd2 : ((acc ++ [(e.item_name, r)]).map Prod.fst
        ++ t.map ElemInfo.item_name).Nodup := by
      simpa [List.append_assoc] using hnd
    obtain ⟨items, hfold, hnames⟩ :=
      ih (acc ++ [(e.item_name, r)])
        (fun x hx => hload x (by simp [hx])) hnd2
    refine ⟨items, ?_, ?_⟩
    · rw [List.foldlM_cons, hstep, hins]
      simpa using hfold
    · rw [hnames]
      simp [List.append_assoc]

/-- When validation succeeds, `_load_cache`'s collection branch is the
loading loop over the sorted descriptors. -/
theorem load_collection_of_valid (pool : NamedPool)
    (cc : List (ElemInfo × Handle))
    (h : validate_collection (cc.map Prod.fst) = Except.ok ()) :
    load_collection pool cc
      = (collection_load_order cc).foldlM (load_step pool cc) [] := by
  unfold load_collection
  rw [h]

/-- Claim C5: for a cached collection record satisfying the completeness
invariant, with pairwise-distinct positions and item names and loadable
storage, reconstruction processes the descriptors sorted by ascending
position index (a permutation of the record's descriptors), is
insensitive to the iteration order of the underlying record, and fills a
freshly built insertion-ordered collection with exactly one entry per
descriptor, keyed by item name in position order. -/
theorem collection_order_round_trip (pool : NamedPool)
    (cached cached' : List (ElemInfo × Handle))
    (hperm : cached.Perm cached')
    (hvalid : validate_collection (cached.map Prod.fst) = Except.ok ())
    (hidx : ((cached.map Prod.fst).map ElemInfo.idx).Nodup)
    (hnames : ((cached.map Prod.fst).map ElemInfo.item_name).Nodup)
    (hstor : ∀ e ∈ cached.map Prod.fst, ∃ h r, assoc cached e = some h
        ∧ assoc pool.storage h = some r) :
    (collection_load_order cached).Sorted (fun a b => a.idx ≤ b.idx)
    ∧ (collection_load_order cached).Perm (cached.map Prod.fst)
    ∧ collection_load_order cached = collection_load_order cached'
    ∧ load_collection pool cached = load_collection pool cached'
    ∧ ∃ items, load_collection pool cached = Except.ok items
        ∧ items.map Prod.fst
            = (collection_load_order cached).map ElemInfo.item_name := by
  haveI : IsTotal ElemInfo (fun a b => a.idx ≤ b.idx) :=
    ⟨fun a b => Nat.le_total a.idx b.idx⟩
  haveI : IsTrans ElemInfo (fun a b => a.idx ≤ b.idx) :=
    ⟨fun _ _ _ hab hbc => Nat.le_trans hab hbc⟩
  have hsorted : (collection_load_order cached).Sorted (fun a b => a.idx ≤ b.idx) :=
    List.sorted_insertionSort _ _
  have hsorted' : (collection_load_order cached').Sorted (fun a b => a.idx ≤ b.idx) :=
    List.sorted_insertionSort _ _
  have hp1 : (collection_load_order cached).Perm (cached.map Prod.fst) :=
    List.perm_insertionSort _ _
  have hp1' : (collection_load_order cached').Perm (cached'.map Prod.fst) :=
    List.perm_insertionSort _ _
  have hmapperm : (cached.map Prod.fst).Perm (cached'.map Prod.fst) :=
    hperm.map Prod.fst
  have hordperm : (collection_load_order cached).Perm (collection_load_order cached') :=
    hp1.trans (hmapperm.trans hp1'.symm)
  have hidxord : ((collection_load_order cached).map ElemInfo.idx).Nodup :=
    ((hp1.map ElemInfo.idx).symm).nodup hidx
  have hordeq : collection_load_order cached = collection_load_order cached' :=
    sorted_lists_unique hordperm hsorted hsorted' hidxord
  have hkeys : (cached.map Prod.fst).Nodup := List.Nodup.of_map ElemInfo.idx hidx
  have hvalid' : validate_collection (cached'.map Prod.fst) = Except.ok () :=
    validate_collection_perm_ok hmapperm hvalid
  have hfold : load_collection pool cached = load_collection pool cached' := by
    rw [load_collection_of_valid pool cached hvalid,
        load_collection_of_valid pool cached' hvalid', hordeq]
    exact load_fold_congr pool (fun e => assoc_perm hperm hkeys e)
      (collection_load_order cached') []
  have hstor' : ∀ e ∈ collection_load_order cached, ∃ h r, assoc cached e = some h
      ∧ assoc pool.storage h = some r :=
    fun e he => hstor e (hp1.mem_iff.mp he)
  have hndnames : ((collection_load_order cached).map ElemInfo.item_name).Nodup :=
    ((hp1.map ElemInfo.item_name).symm).nodup hnames
  obtain ⟨items, hfold2, hnm⟩ :=
    load_fold_names pool cached (collection_load_order cached) [] hstor'
      (by simpa using hndnames)
  refine ⟨hsorted, hp1, hordeq, hfold, items, ?_, by simpa using hnm⟩
  rw [load_collection_of_valid pool cached hvalid]
  exact hfold2

/-- Witness for C5: the five-element record with positions {0,…,4} and
`total = 5`, stored out of order, loads in position order and agrees
with a differently-permuted copy of itself. -/
theorem collection_order_round_trip_witness :
    fiveElems.Perm
      [(⟨"a", 0, 5⟩, 10), (⟨"b", 1, 5⟩, 11), (⟨"c", 2, 5⟩, 12),
       (⟨"d", 3, 5⟩, 13), (⟨"e", 4, 5⟩, 14)]
    ∧ validate_collection (fiveElems.map Prod.fst) = Except.ok ()
    ∧ load_collection fiveStorage fiveElems
        = load_collection fiveStorage
            [(⟨"a", 0, 5⟩, 10), (⟨"b", 1, 5⟩, 11), (⟨"c", 2, 5⟩, 12),
             (⟨"d", 3, 5⟩, 13), (⟨"e", 4, 5⟩, 14)]
    ∧ collection_load_order fiveElems
        = [⟨"a", 0, 5⟩, ⟨"b", 1, 5⟩, ⟨"c", 2, 5⟩, ⟨"d", 3, 5⟩, ⟨"e", 4, 5⟩] :=
  ⟨by decide, rfl,
   (collection_order_round_trip fiveStorage fiveElems
      [(⟨"a", 0, 5⟩, 10), (⟨"b", 1, 5⟩, 11), (⟨"c", 2, 5⟩, 12),
       (⟨"d", 3, 5⟩, 13), (⟨"e", 4, 5⟩, 14)]
      (by decide) rfl (by decide) (by decide)
      (by
        intro e he
        simp only [fiveElems, List.map_cons, List.map_nil, List.mem_cons,
          List.not_mem_nil, or_false] at he
        rcases he with rfl | rfl | rfl | rfl | rfl <;>
          exact ⟨_, _, rfl, rfl⟩)).2.2.2.1,
   by decide⟩

end Qiime2
